import Mathlib

/-!
Verification of the HTML instrumentation core (`HTMLInstrumentation.js`).

The module scans an HTML-like document into a list of tag spans, each with a
unique numeric identity, caches the scan per document keyed by a timestamp,
and rewrites the document text by inserting a `data-brackets-id='<n>'`
attribute after each tag name.

The embedding below mirrors the source:
  * document text is a `List Char` (JS string);
  * the node stream that the external collaborator `DOMHelpers.eachNode`
    derives from the text is a `List Payload`, carried on the `Document`
    record since the tokenizer itself is an external collaborator;
  * the module-level mutable cache `_cachedValues` becomes an explicit
    `Cache` value threaded through `scanDocument`;
  * JS numbers appearing in subtractions (`unclosedLength`) are `Int`, so
    negative intermediate values are represented faithfully; a JS falsy
    check `!tag.unclosedLength` (true for `undefined` and for `0`, the two
    behaving identically at both use sites) is `unclosedLength = 0`.
-/

/-- A node event produced by the tokenizer (`DOMHelpers.eachNode` payload):
`nodeType`, `nodeName` (empty string for a missing/falsy name), the
self-closed flag `closed`, the closing-tag flag `closing`, and the source
offset/length of the token. -/
structure Payload where
  nodeType : Nat
  nodeName : String
  closed : Bool
  closing : Bool
  sourceOffset : Nat
  sourceLength : Nat
deriving DecidableEq, Repr

/-- An entry of the scanner's open-tag stack: the fields of the pushed
payload that the scanner reads, plus the back-patched `unclosedLength`
(`0` = unset, matching the JS falsy check on `undefined`/`0`). -/
structure OpenTag where
  nodeName : String
  sourceOffset : Nat
  sourceLength : Nat
  unclosedLength : Int
deriving DecidableEq, Repr

/-- A scanned tag span: `name`, identity `data`, `start` offset and
one-past-the-end offset `endPos` (the JS object's `end` field). -/
structure Tag where
  name : String
  data : Nat
  start : Nat
  endPos : Int
deriving DecidableEq, Repr

/-- Lower-cased characters of a string (the effect of the regex `i` flag on
the ASCII tag names involved). -/
def lowerChars (s : String) : List Char :=
  s.toList.map Char.toLower

/-- Does the list start with the given pattern? -/
def listStartsWith : List Char → List Char → Bool
  | _, [] => true
  | [], _ :: _ => false
  | c :: cs, d :: ds => c == d && listStartsWith cs ds

/-- Does the pattern occur as a contiguous substring anywhere in the list?
This is what an unanchored regex alternative tests. -/
def listContainsSub : List Char → List Char → Bool
  | [], pat => pat.isEmpty
  | s@(_ :: rest), pat => listStartsWith s pat || listContainsSub rest pat

/-- The alternatives of the void-element regex
`/(!doctype|area|base|basefont|br|wbr|col|frame|hr|img|input|isindex|link|meta|param|embed)/i`. -/
def voidTagPatterns : List String :=
  ["!doctype", "area", "base", "basefont", "br", "wbr", "col", "frame",
   "hr", "img", "input", "isindex", "link", "meta", "param", "embed"]

/-- Embeds `_isEmptyTag(payload)`: true when the payload is self-closed or
has no name, or when the unanchored case-insensitive void-element regex
finds one of its alternatives anywhere inside the node name. -/
def _isEmptyTag (p : Payload) : Bool :=
  p.closed || p.nodeName == "" ||
    voidTagPatterns.any (fun pat => listContainsSub (lowerChars p.nodeName) pat.toList)

/-- The scanner's in-flight state: emitted tags, open-tag stack (head is the
top, i.e. the end of the JS array), and the next identity `tagID`. -/
structure ScanState where
  tags : List Tag
  stack : List OpenTag
  tagID : Nat
deriving DecidableEq, Repr

/-- Embeds the back-patch at the top of the event handler: if the stack is
non-empty and its top entry has no `unclosedLength` yet, record one —
running to end of document for `HTML`/`BODY`, else up to the current
event's offset. -/
def patchTop (textLen : Nat) (p : Payload) : List OpenTag → List OpenTag
  | [] => []
  | e :: rest =>
    if e.unclosedLength = 0 then
      if e.nodeName = "HTML" ∨ e.nodeName = "BODY" then
        { e with unclosedLength := (textLen : Int) - (e.sourceOffset : Int) } :: rest
      else
        { e with unclosedLength := (p.sourceOffset : Int) - (e.sourceOffset : Int) } :: rest
    else
      e :: rest

/-- Embeds the closing-tag search: walk the stack from the top (list head)
for the first entry with the given name, and splice it out, leaving the
entries above it in place. `none` when no entry matches. -/
def spliceFirst (name : String) : List OpenTag → Option (OpenTag × List OpenTag)
  | [] => none
  | e :: rest =>
    if e.nodeName = name then
      some (e, rest)
    else
      match spliceFirst name rest with
      | some (t, rest') => some (t, e :: rest')
      | none => none

/-- One step of the scanner, embedding the body of the `eachNode` callback:
drop closing events for empty tags; for element events with a name,
back-patch the stack top, then emit a span (empty tag), match-and-emit
(closing tag, dropped with a logged error when unmatched) or push
(opening tag). -/
def scanStep (textLen : Nat) (st : ScanState) (p : Payload) : ScanState :=
  if p.closing && _isEmptyTag p then
    st
  else if p.nodeType = 1 ∧ p.nodeName ≠ "" then
    if _isEmptyTag p then
      { tags := st.tags ++
          [⟨p.nodeName, st.tagID, p.sourceOffset, ((p.sourceOffset + p.sourceLength : Nat) : Int)⟩],
        stack := patchTop textLen p st.stack,
        tagID := st.tagID + 1 }
    else if p.closing then
      match spliceFirst p.nodeName (patchTop textLen p st.stack) with
      | some (startTag, stack2) =>
          { tags := st.tags ++
              [⟨startTag.nodeName, st.tagID, startTag.sourceOffset,
                ((p.sourceOffset + p.sourceLength : Nat) : Int)⟩],
            stack := stack2,
            tagID := st.tagID + 1 }
      | none => { st with stack := patchTop textLen p st.stack }
    else
      { st with stack := ⟨p.nodeName, p.sourceOffset, p.sourceLength, 0⟩ :: patchTop textLen p st.stack }
  else
    st

/-- The scanner's initial state. -/
def scanInit : ScanState := ⟨[], [], 1⟩

/-- Embeds the drain loop after the stream ends: pop each remaining open
tag (most recently opened first) and emit a span whose extent is the
recorded unclosed length, or the tag's own source length when unset. -/
def drainStack (tagID : Nat) : List OpenTag → List Tag
  | [] => []
  | e :: rest =>
    ⟨e.nodeName, tagID, e.sourceOffset,
      (e.sourceOffset : Int) +
        (if e.unclosedLength = 0 then (e.sourceLength : Int) else e.unclosedLength)⟩ ::
      drainStack (tagID + 1) rest

/-- The list of spans in emission order: those emitted during the stream,
then the drained unclosed ones. -/
def scanEmitted (textLen : Nat) (stream : List Payload) : List Tag :=
  let st := stream.foldl (scanStep textLen) scanInit
  st.tags ++ drainStack st.tagID st.stack

/-- Stable insertion by `start`: the new span goes before the first existing
span whose `start` is not smaller. -/
def insertTag (t : Tag) : List Tag → List Tag
  | [] => [t]
  | u :: rest => if u.start < t.start then u :: insertTag t rest else t :: u :: rest

/-- Embeds `tags.sort(comparator)` where the comparator orders by `start`
only: the unique stable sort by ascending `start`. -/
def sortTags : List Tag → List Tag
  | [] => []
  | t :: rest => insertTag t (sortTags rest)

/-- The scanner proper: fold the node stream, drain, sort by start. -/
def scanTags (textLen : Nat) (stream : List Payload) : List Tag :=
  sortTags (scanEmitted textLen stream)

/-- One entry of the module cache `_cachedValues`: the document timestamp
and the tag list stored at the last scan. -/
structure CacheEntry where
  timestamp : Int
  tags : List Tag
deriving DecidableEq, Repr

/-- The module-level cache, keyed by the document's full path. -/
abbrev Cache : Type := String → Option CacheEntry

/-- The cache before any scan. -/
def emptyCache : Cache := fun _ => none

/-- Store (or replace) a cache entry under a key. -/
def updateCache (c : Cache) (key : String) (e : CacheEntry) : Cache :=
  fun k => if k = key then some e else c k

/-- The document's file handle (only `fullPath` is read). -/
structure DocFile where
  fullPath : String
deriving DecidableEq, Repr

/-- A document as this module reads it: file path, disk timestamp, text
(`doc.getText()`), and the node stream the external tokenizer
`DOMHelpers.eachNode` produces for that text. -/
structure Document where
  file : DocFile
  diskTimestamp : Int
  text : List Char
  nodes : List Payload
deriving DecidableEq, Repr

/-- Embeds `scanDocument(doc)`: return the cached tag list when the cached
timestamp equals the document's current one; otherwise scan fresh text,
replace the snapshot for this key, and return the new list. The pair's
second component is the cache after the call. -/
def scanDocument (c : Cache) (doc : Document) : List Tag × Cache :=
  match c doc.file.fullPath with
  | some cachedValue =>
    if cachedValue.timestamp = doc.diskTimestamp then
      (cachedValue.tags, c)
    else
      let tags := scanTags doc.text.length doc.nodes
      (tags, updateCache c doc.file.fullPath ⟨doc.diskTimestamp, tags⟩)
  | none =>
    let tags := scanTags doc.text.length doc.nodes
    (tags, updateCache c doc.file.fullPath ⟨doc.diskTimestamp, tags⟩)

/-- The attribute text `" data-brackets-id='" + tag.data + "'"`. -/
def attrTextFor (data : Nat) : List Char :=
  (" data-brackets-id='" ++ toString data ++ "'").toList

/-- Embeds `gen.substr(0, insertIndex) + attrText + gen.substr(insertIndex)`
(both JS `substr` uses clamp at the string's length). -/
def insertAttr (gen : List Char) (idx : Nat) (attr : List Char) : List Char :=
  gen.take idx ++ attr ++ gen.drop idx

/-- One iteration of the `tags.forEach` loop in `generateInstrumentedHTML`:
the accumulator is `(gen, insertCount)`. -/
def instrumentStep (acc : List Char × Nat) (tag : Tag) : List Char × Nat :=
  let attrText := attrTextFor tag.data
  let insertIndex := tag.start + tag.name.length + 1 + acc.2
  (insertAttr acc.1 insertIndex attrText, acc.2 + attrText.length)

/-- Embeds `generateInstrumentedHTML(doc)`: scan (through the cache), then
walk the tags inserting each attribute at
`tag.start + tag.name.length + 1 + insertCount`. The `.slice()` copy of
the cached list is the identity here since values are immutable. The
second component is the cache after the embedded `scanDocument` call. -/
def generateInstrumentedHTML (c : Cache) (doc : Document) : List Char × Cache :=
  let r := scanDocument c doc
  (((r.1).foldl instrumentStep (doc.text, 0)).1, r.2)

/-- Embeds `_markText(editor)` up to the external `MarkedTextTracker`: yields
the tag list handed to `MarkedTextTracker.markText` when a cache entry
exists for the document (a cached empty list is still truthy in JS and is
handed over), and `none` for the reported-error early return. -/
def _markText (c : Cache) (fullPath : String) : Option (List Tag) :=
  match c fullPath with
  | some cachedValue => some cachedValue.tags
  | none => none

/-- Embeds `_getTagIDAtDocumentPos` as a function of the range list the
external `MarkedTextTracker.getRangesAtDocumentPos` returns: the first
range's identity, or `-1` when there is none. -/
def _getTagIDAtDocumentPos (result : List Tag) : Int :=
  match result with
  | r :: _ => (r.data : Int)
  | [] => -1

/-- Specification-side description of the instrumentation pass, written from
the spec's words for the refinement claim: process the spans in the given
order; for each span insert the string `" data-brackets-id='<identity>'"`
at index `span.start + length(span.name) + 1 + cumulativeInsertedLength`
and add the inserted string's length to the cumulative total. -/
def instrumentSpec : List Tag → List Char → Nat → List Char
  | [], text, _ => text
  | s :: rest, text, cumulative =>
    let attr := (" data-brackets-id='" ++ toString s.data ++ "'").toList
    let idx := s.start + s.name.length + 1 + cumulative
    instrumentSpec rest (text.take idx ++ attr ++ text.drop idx) (cumulative + attr.length)

/-- The (index, length) of each insertion `generateInstrumentedHTML` makes,
in pass order, starting from a given cumulative inserted length. -/
def insertionRecords : List Tag → Nat → List (Nat × Nat)
  | [], _ => []
  | t :: rest, cumulative =>
    let attr := attrTextFor t.data
    (t.start + t.name.length + 1 + cumulative, attr.length) ::
      insertionRecords rest (cumulative + attr.length)

/-- Remove `len` characters starting at index `i`. -/
def removeAt (i len : Nat) (s : List Char) : List Char :=
  s.take i ++ s.drop (i + len)

/-- Strip a list of recorded insertions, in the order given. -/
def stripAll : List (Nat × Nat) → List Char → List Char
  | [], s => s
  | (i, len) :: rest, s => stripAll rest (removeAt i len s)

/-! ## Concrete documents and node streams used in the examples -/

/-- Node stream of `"<div><p>text"`: two opening tags, then end of stream. -/
def streamUnclosed : List Payload :=
  [⟨1, "div", false, false, 0, 5⟩, ⟨1, "p", false, false, 5, 3⟩]

/-- Node stream of `"<div><span>x</span></div>"`. -/
def streamNested : List Payload :=
  [⟨1, "div", false, false, 0, 5⟩, ⟨1, "span", false, false, 5, 6⟩,
   ⟨1, "span", false, true, 12, 7⟩, ⟨1, "div", false, true, 19, 6⟩]

/-- Node stream of `"<div></span></div>"`: the `</span>` is unmatched. -/
def streamStray : List Payload :=
  [⟨1, "div", false, false, 0, 5⟩, ⟨1, "span", false, true, 5, 7⟩,
   ⟨1, "div", false, true, 12, 6⟩]

/-- The nested example as a full document. -/
def docNested : Document :=
  ⟨⟨"/doc/nested.html"⟩, 7, "<div><span>x</span></div>".toList, streamNested⟩

/-- A one-element document used for the instrumentation examples. -/
def docSimple : Document :=
  ⟨⟨"/doc/simple.html"⟩, 3, "<div></div>".toList,
   [⟨1, "div", false, false, 0, 5⟩, ⟨1, "div", false, true, 5, 6⟩]⟩

/-- A document whose node stream has no element events (tag-free text). -/
def docPlain : Document :=
  ⟨⟨"/doc/plain.html"⟩, 5, "plain text".toList, [⟨3, "", false, false, 0, 10⟩]⟩

/-! ## The stable sort: permutation, sortedness, stability -/

theorem insertTag_perm (t : Tag) (l : List Tag) : (insertTag t l).Perm (t :: l) := by
  induction l with
  | nil => exact List.Perm.refl _
  | cons u rest ih =>
    by_cases h : u.start < t.start
    · simp only [insertTag, if_pos h]
      exact (ih.cons u).trans (List.Perm.swap t u rest)
    · simp only [insertTag, if_neg h]
      exact List.Perm.refl _

theorem sortTags_perm (l : List Tag) : (sortTags l).Perm l := by
  induction l with
  | nil => exact List.Perm.refl _
  | cons t rest ih => exact (insertTag_perm t (sortTags rest)).trans (ih.cons t)

theorem mem_insertTag {x t : Tag} {l : List Tag} (h : x ∈ insertTag t l) :
    x = t ∨ x ∈ l := by
  have := (insertTag_perm t l).mem_iff.mp h
  simpa using this

theorem insertTag_sorted (t : Tag) (l : List Tag)
    (h : l.Pairwise (fun a b => a.start ≤ b.start)) :
    (insertTag t l).Pairwise (fun a b => a.start ≤ b.start) := by
  induction l with
  | nil => simp [insertTag]
  | cons u rest ih =>
    rw [List.pairwise_cons] at h
    by_cases hu : u.start < t.start
    · simp only [insertTag, if_pos hu]
      rw [List.pairwise_cons]
      refine ⟨fun x hx => ?_, ih h.2⟩
      rcases mem_insertTag hx with rfl | hx
      · exact Nat.le_of_lt hu
      · exact h.1 x hx
    · simp only [insertTag, if_neg hu]
      rw [List.pairwise_cons]
      refine ⟨fun x hx => ?_, List.pairwise_cons.mpr h⟩
      rcases List.mem_cons.mp hx with rfl | hx
      · exact Nat.le_of_not_lt hu
      · exact Nat.le_trans (Nat.le_of_not_lt hu) (h.1 x hx)

theorem sortTags_sorted (l : List Tag) :
    (sortTags l).Pairwise (fun a b => a.start ≤ b.start) := by
  induction l with
  | nil => simp [sortTags]
  | cons t rest ih => exact insertTag_sorted t (sortTags rest) ih

theorem insertTag_split (t : Tag) (l : List Tag) :
    ∃ l₁ l₂, l = l₁ ++ l₂ ∧ insertTag t l = l₁ ++ t :: l₂ ∧
      ∀ u ∈ l₁, u.start < t.start := by
  induction l with
  | nil => exact ⟨[], [], rfl, rfl, by simp⟩
  | cons u rest ih =>
    by_cases hu : u.start < t.start
    · obtain ⟨l₁, l₂, he, hi, hlt⟩ := ih
      refine ⟨u :: l₁, l₂, by rw [List.cons_append, he], ?_, ?_⟩
      · simp only [insertTag, if_pos hu, List.cons_append, hi]
      · intro x hx
        rcases List.mem_cons.mp hx with rfl | hx
        · exact hu
        · exact hlt x hx
    · exact ⟨[], u :: rest, rfl, by simp [insertTag, if_neg hu], by simp⟩

theorem sortTags_filter_start (l : List Tag) (k : Nat) :
    (sortTags l).filter (fun t => t.start == k) = l.filter (fun t => t.start == k) := by
  induction l with
  | nil => rfl
  | cons t rest ih =>
    obtain ⟨l₁, l₂, he, hi, hlt⟩ := insertTag_split t (sortTags rest)
    have hsplit : l₁.filter (fun t => t.start == k) ++ l₂.filter (fun t => t.start == k) =
        rest.filter (fun t => t.start == k) := by
      rw [← List.filter_append, ← he, ih]
    show (insertTag t (sortTags rest)).filter (fun t => t.start == k) = _
    rw [hi, List.filter_append, List.filter_cons, List.filter_cons]
    by_cases hk : (t.start == k) = true
    · have hk' : t.start = k := by simpa using hk
      have hnil : l₁.filter (fun t => t.start == k) = [] := by
        rw [List.filter_eq_nil_iff]
        intro u hu
        have : u.start ≠ k := Nat.ne_of_lt (hk' ▸ hlt u hu)
        simpa using this
      rw [if_pos hk, if_pos hk, hnil, List.nil_append, ← hsplit, hnil, List.nil_append]
    · rw [if_neg hk, if_neg hk, hsplit]

/-! ## Identity assignment: emitted identities are `1, 2, 3, …` -/

/-- The identity bookkeeping invariant of the scanner state. -/
def idsOK (st : ScanState) : Prop :=
  st.tags.map (fun t => t.data) = List.range' 1 st.tags.length ∧
    st.tagID = 1 + st.tags.length

theorem scanStep_skip (textLen : Nat) (st : ScanState) (p : Payload)
    (h1 : (p.closing && _isEmptyTag p) = true) :
    scanStep textLen st p = st := by
  unfold scanStep
  rw [if_pos h1]

theorem scanStep_nonElement (textLen : Nat) (st : ScanState) (p : Payload)
    (h1 : (p.closing && _isEmptyTag p) = false)
    (h2 : ¬(p.nodeType = 1 ∧ p.nodeName ≠ "")) :
    scanStep textLen st p = st := by
  unfold scanStep
  rw [if_neg (by simp [h1]), if_neg h2]

theorem scanStep_empty (textLen : Nat) (st : ScanState) (p : Payload)
    (h1 : (p.closing && _isEmptyTag p) = false)
    (h2 : p.nodeType = 1 ∧ p.nodeName ≠ "")
    (h3 : _isEmptyTag p = true) :
    scanStep textLen st p =
      { tags := st.tags ++
          [⟨p.nodeName, st.tagID, p.sourceOffset, ((p.sourceOffset + p.sourceLength : Nat) : Int)⟩],
        stack := patchTop textLen p st.stack,
        tagID := st.tagID + 1 } := by
  unfold scanStep
  rw [if_neg (by simp [h1]), if_pos h2, if_pos h3]

theorem scanStep_closeMatch (textLen : Nat) (st : ScanState) (p : Payload)
    (startTag : OpenTag) (stack2 : List OpenTag)
    (h1 : (p.closing && _isEmptyTag p) = false)
    (h2 : p.nodeType = 1 ∧ p.nodeName ≠ "")
    (h3 : _isEmptyTag p = false)
    (h4 : p.closing = true)
    (hsp : spliceFirst p.nodeName (patchTop textLen p st.stack) = some (startTag, stack2)) :
    scanStep textLen st p =
      { tags := st.tags ++
          [⟨startTag.nodeName, st.tagID, startTag.sourceOffset,
            ((p.sourceOffset + p.sourceLength : Nat) : Int)⟩],
        stack := stack2,
        tagID := st.tagID + 1 } := by
  unfold scanStep
  rw [if_neg (by simp [h1]), if_pos h2, if_neg (by simp [h3]), if_pos h4, hsp]

theorem scanStep_closeNone (textLen : Nat) (st : ScanState) (p : Payload)
    (h1 : (p.closing && _isEmptyTag p) = false)
    (h2 : p.nodeType = 1 ∧ p.nodeName ≠ "")
    (h3 : _isEmptyTag p = false)
    (h4 : p.closing = true)
    (hsp : spliceFirst p.nodeName (patchTop textLen p st.stack) = none) :
    scanStep textLen st p = { st with stack := patchTop textLen p st.stack } := by
  unfold scanStep
  rw [if_neg (by simp [h1]), if_pos h2, if_neg (by simp [h3]), if_pos h4, hsp]

theorem scanStep_open (textLen : Nat) (st : ScanState) (p : Payload)
    (h1 : (p.closing && _isEmptyTag p) = false)
    (h2 : p.nodeType = 1 ∧ p.nodeName ≠ "")
    (h3 : _isEmptyTag p = false)
    (h4 : p.closing = false) :
    scanStep textLen st p =
      { st with stack := ⟨p.nodeName, p.sourceOffset, p.sourceLength, 0⟩ ::
          patchTop textLen p st.stack } := by
  unfold scanStep
  rw [if_neg (by simp [h1]), if_pos h2, if_neg (by simp [h3]), if_neg (by simp [h4])]

theorem scanStep_shape (textLen : Nat) (st : ScanState) (p : Payload) :
    ((scanStep textLen st p).tags = st.tags ∧ (scanStep textLen st p).tagID = st.tagID) ∨
    (∃ t : Tag, (scanStep textLen st p).tags = st.tags ++ [t] ∧ t.data = st.tagID ∧
      (scanStep textLen st p).tagID = st.tagID + 1) := by
  by_cases h1 : (p.closing && _isEmptyTag p) = true
  · rw [scanStep_skip textLen st p h1]; exact Or.inl ⟨rfl, rfl⟩
  have h1' : (p.closing && _isEmptyTag p) = false := by
    cases h : p.closing && _isEmptyTag p
    · rfl
    · exact absurd h h1
  by_cases h2 : p.nodeType = 1 ∧ p.nodeName ≠ ""
  · by_cases h3 : _isEmptyTag p = true
    · rw [scanStep_empty textLen st p h1' h2 h3]
      exact Or.inr ⟨_, rfl, rfl, rfl⟩
    have h3' : _isEmptyTag p = false := by
      cases h : _isEmptyTag p
      · rfl
      · exact absurd h h3
    by_cases h4 : p.closing = true
    · cases hsp : spliceFirst p.nodeName (patchTop textLen p st.stack) with
      | none => rw [scanStep_closeNone textLen st p h1' h2 h3' h4 hsp]; exact Or.inl ⟨rfl, rfl⟩
      | some pr =>
        rw [scanStep_closeMatch textLen st p pr.1 pr.2 h1' h2 h3' h4 (by rw [hsp])]
        exact Or.inr ⟨_, rfl, rfl, rfl⟩
    · have h4' : p.closing = false := by
        cases h : p.closing
        · rfl
        · exact absurd h h4
      rw [scanStep_open textLen st p h1' h2 h3' h4']
      exact Or.inl ⟨rfl, rfl⟩
  · rw [scanStep_nonElement textLen st p h1' h2]; exact Or.inl ⟨rfl, rfl⟩

theorem scanStep_idsOK (textLen : Nat) (st : ScanState) (p : Payload)
    (h : idsOK st) : idsOK (scanStep textLen st p) := by
  rcases scanStep_shape textLen st p with ⟨ht, hid⟩ | ⟨t, ht, hd, hid⟩
  · exact ⟨by rw [ht, h.1], by rw [hid, ht, h.2]⟩
  · obtain ⟨hmap, hcount⟩ := h
    constructor
    · rw [ht, List.map_append, hmap, List.length_append, List.length_singleton,
        List.map_singleton, hd, hcount]
      have hr := List.range'_append 1 st.tags.length 1 1
      simp only [Nat.one_mul, List.range'_one] at hr
      rw [Nat.add_comm st.tags.length 1, ← hr]
    · rw [hid, ht, hcount, List.length_append, List.length_singleton]
      omega

theorem scanFold_idsOK (textLen : Nat) :
    ∀ (stream : List Payload) (st : ScanState), idsOK st →
      idsOK (stream.foldl (scanStep textLen) st) := by
  intro stream
  induction stream with
  | nil => exact fun st h => h
  | cons p rest ih =>
    intro st h
    exact ih (scanStep textLen st p) (scanStep_idsOK textLen st p h)

theorem drainStack_map_data (stack : List OpenTag) :
    ∀ n, (drainStack n stack).map (fun t => t.data) = List.range' n stack.length := by
  induction stack with
  | nil => intro n; rfl
  | cons e rest ih =>
    intro n
    simp only [drainStack, List.map_cons, List.length_cons, ih (n + 1), List.range'_succ]

theorem drainStack_length (stack : List OpenTag) :
    ∀ n, (drainStack n stack).length = stack.length := by
  induction stack with
  | nil => intro n; rfl
  | cons e rest ih => intro n; simp [drainStack, ih (n + 1)]

theorem scanEmitted_map_data (textLen : Nat) (stream : List Payload) :
    (scanEmitted textLen stream).map (fun t => t.data) =
      List.range' 1 (scanEmitted textLen stream).length := by
  obtain ⟨hmap, hcount⟩ := scanFold_idsOK textLen stream scanInit ⟨rfl, rfl⟩
  set st := stream.foldl (scanStep textLen) scanInit with hst
  show (st.tags ++ drainStack st.tagID st.stack).map (fun t => t.data) =
      List.range' 1 (st.tags ++ drainStack st.tagID st.stack).length
  rw [List.map_append, hmap, drainStack_map_data st.stack st.tagID, hcount,
    List.length_append, drainStack_length]
  have hr := List.range'_append 1 st.tags.length st.stack.length 1
  simp only [Nat.one_mul] at hr
  rw [hr, Nat.add_comm]

/-! ## The scan invariant: spans in bounds, starts strictly below ends -/

/-- Wellformedness of one tokenizer event, as the collaborator contract
guarantees it for element events: positive source length and the token
lying within the document text. -/
abbrev PayloadOK (textLen : Nat) (p : Payload) : Prop :=
  p.nodeType = 1 → p.nodeName ≠ "" →
    0 < p.sourceLength ∧ p.sourceOffset + p.sourceLength ≤ textLen

/-- Wellformedness of one open-stack entry: positive source length, token
within the document, and an unclosed extent that is unset or positive. -/
def EntryOK (textLen : Nat) (e : OpenTag) : Prop :=
  0 < e.sourceLength ∧ e.sourceOffset + e.sourceLength ≤ textLen ∧
    (e.unclosedLength = 0 ∨ 0 < e.unclosedLength)

/-- The scanner invariant relative to the remaining stream: every stack
entry is wellformed and was opened strictly before every remaining event,
and every emitted span starts strictly before it ends. -/
def ScanInv (textLen : Nat) (rest : List Payload) (st : ScanState) : Prop :=
  (∀ e ∈ st.stack, EntryOK textLen e ∧ ∀ q ∈ rest, e.sourceOffset < q.sourceOffset) ∧
  (∀ t ∈ st.tags, (t.start : Int) < t.endPos)

theorem patchTop_entriesOK (textLen : Nat) (p : Payload) (rest : List Payload)
    (stack : List OpenTag)
    (h : ∀ e ∈ stack, EntryOK textLen e ∧ e.sourceOffset < p.sourceOffset ∧
      ∀ q ∈ rest, e.sourceOffset < q.sourceOffset) :
    ∀ e ∈ patchTop textLen p stack, EntryOK textLen e ∧ e.sourceOffset < p.sourceOffset ∧
      ∀ q ∈ rest, e.sourceOffset < q.sourceOffset := by
  cases stack with
  | nil => intro e he; exact absurd he (by simp [patchTop])
  | cons hd tl =>
    intro e he
    have hhd := h hd (List.mem_cons_self hd tl)
    by_cases h0 : hd.unclosedLength = 0
    · by_cases hn : hd.nodeName = "HTML" ∨ hd.nodeName = "BODY"
      · simp only [patchTop, if_pos h0, if_pos hn] at he
        rcases List.mem_cons.mp he with rfl | hmem
        · refine ⟨⟨hhd.1.1, hhd.1.2.1, Or.inr ?_⟩, hhd.2.1, hhd.2.2⟩
          have hl : 0 < hd.sourceLength := hhd.1.1
          have hb : hd.sourceOffset + hd.sourceLength ≤ textLen := hhd.1.2.1
          show (0 : Int) < (textLen : Int) - (hd.sourceOffset : Int)
          omega
        · exact h e (List.mem_cons_of_mem hd hmem)
      · simp only [patchTop, if_pos h0, if_neg hn] at he
        rcases List.mem_cons.mp he with rfl | hmem
        · refine ⟨⟨hhd.1.1, hhd.1.2.1, Or.inr ?_⟩, hhd.2.1, hhd.2.2⟩
          have hlt : hd.sourceOffset < p.sourceOffset := hhd.2.1
          show (0 : Int) < (p.sourceOffset : Int) - (hd.sourceOffset : Int)
          omega
        · exact h e (List.mem_cons_of_mem hd hmem)
    · simp only [patchTop, if_neg h0] at he
      exact h e he

theorem patchTop_fields (textLen : Nat) (p : Payload) (stack : List OpenTag) :
    (patchTop textLen p stack).map (fun e => (e.nodeName, e.sourceOffset, e.sourceLength)) =
      stack.map (fun e => (e.nodeName, e.sourceOffset, e.sourceLength)) := by
  cases stack with
  | nil => rfl
  | cons e rest =>
    by_cases h0 : e.unclosedLength = 0
    · by_cases hn : e.nodeName = "HTML" ∨ e.nodeName = "BODY"
      · simp [patchTop, if_pos h0, if_pos hn]
      · simp [patchTop, if_pos h0, if_neg hn]
    · simp [patchTop, if_neg h0]

theorem patchTop_names (textLen : Nat) (p : Payload) (stack : List OpenTag)
    (name : String) (h : ∀ e ∈ stack, e.nodeName ≠ name) :
    ∀ e ∈ patchTop textLen p stack, e.nodeName ≠ name := by
  intro e he
  have hmem : e.nodeName ∈ (patchTop textLen p stack).map (fun e => e.nodeName) :=
    List.mem_map_of_mem _ he
  have hmapeq : (patchTop textLen p stack).map (fun e => e.nodeName) =
      stack.map (fun e => e.nodeName) := by
    have := congrArg (List.map (fun pr : String × Nat × Nat => pr.1)) (patchTop_fields textLen p stack)
    simpa [Function.comp] using this
  rw [hmapeq] at hmem
  obtain ⟨x, hx, hxe⟩ := List.mem_map.mp hmem
  exact hxe ▸ h x hx

theorem spliceFirst_mem (name : String) :
    ∀ (stack : List OpenTag) (t : OpenTag) (rest' : List OpenTag),
      spliceFirst name stack = some (t, rest') →
      t ∈ stack ∧ ∀ x ∈ rest', x ∈ stack := by
  intro stack
  induction stack with
  | nil => intro t rest' h; exact absurd h (by simp [spliceFirst])
  | cons e tl ih =>
    intro t rest' h
    by_cases he : e.nodeName = name
    · simp only [spliceFirst, if_pos he, Option.some.injEq, Prod.mk.injEq] at h
      obtain ⟨rfl, rfl⟩ := h
      exact ⟨List.mem_cons_self _ _, fun x hx => List.mem_cons_of_mem _ hx⟩
    · simp only [spliceFirst, if_neg he] at h
      cases hsp : spliceFirst name tl with
      | none => rw [hsp] at h; exact absurd h (by simp)
      | some pr =>
        obtain ⟨a, b⟩ := pr
        rw [hsp] at h
        simp only [Option.some.injEq, Prod.mk.injEq] at h
        obtain ⟨rfl, rfl⟩ := h
        have hm := ih a b hsp
        constructor
        · exact List.mem_cons_of_mem e hm.1
        · intro x hx
          rcases List.mem_cons.mp hx with rfl | hx
          · exact List.mem_cons_self x tl
          · exact List.mem_cons_of_mem e (hm.2 x hx)

theorem spliceFirst_ofMem (name : String) (t : OpenTag)
    (hmatch : t.nodeName = name) :
    ∀ (pre post : List OpenTag), (∀ u ∈ pre, u.nodeName ≠ name) →
      spliceFirst name (pre ++ t :: post) = some (t, pre ++ post) := by
  intro pre
  induction pre with
  | nil => intro post _; simp [spliceFirst, hmatch]
  | cons u rest ih =>
    intro post hpre
    have hu : u.nodeName ≠ name := hpre u (List.mem_cons_self u rest)
    show spliceFirst name (u :: (rest ++ t :: post)) = _
    simp only [spliceFirst, if_neg hu]
    rw [ih post (fun v hv => hpre v (List.mem_cons_of_mem u hv))]
    rfl

theorem spliceFirst_eq_none (name : String) :
    ∀ stack : List OpenTag, (∀ e ∈ stack, e.nodeName ≠ name) →
      spliceFirst name stack = none := by
  intro stack
  induction stack with
  | nil => intro _; rfl
  | cons e tl ih =>
    intro h
    simp only [spliceFirst, if_neg (h e (List.mem_cons_self e tl))]
    rw [ih (fun x hx => h x (List.mem_cons_of_mem e hx))]

theorem scanStep_inv (textLen : Nat) (p : Payload) (rest : List Payload) (st : ScanState)
    (hp : PayloadOK textLen p)
    (hrest : ∀ q ∈ rest, p.sourceOffset < q.sourceOffset)
    (hinv : ScanInv textLen (p :: rest) st) :
    ScanInv textLen rest (scanStep textLen st p) := by
  obtain ⟨hstack, htags⟩ := hinv
  have hstack' : ∀ e ∈ st.stack, EntryOK textLen e ∧ e.sourceOffset < p.sourceOffset ∧
      ∀ q ∈ rest, e.sourceOffset < q.sourceOffset := fun e he =>
    ⟨(hstack e he).1, (hstack e he).2 p (List.mem_cons_self p rest),
      fun q hq => (hstack e he).2 q (List.mem_cons_of_mem p hq)⟩
  have hpatched := patchTop_entriesOK textLen p rest st.stack hstack'
  by_cases h1 : (p.closing && _isEmptyTag p) = true
  · rw [scanStep_skip textLen st p h1]
    exact ⟨fun e he => ⟨(hstack' e he).1, (hstack' e he).2.2⟩, htags⟩
  have h1' : (p.closing && _isEmptyTag p) = false := by
    cases h : p.closing && _isEmptyTag p
    · rfl
    · exact absurd h h1
  by_cases h2 : p.nodeType = 1 ∧ p.nodeName ≠ ""
  case neg =>
    rw [scanStep_nonElement textLen st p h1' h2]
    exact ⟨fun e he => ⟨(hstack' e he).1, (hstack' e he).2.2⟩, htags⟩
  case pos =>
  obtain ⟨hlen, hbound⟩ := hp h2.1 h2.2
  by_cases h3 : _isEmptyTag p = true
  · rw [scanStep_empty textLen st p h1' h2 h3]
    constructor
    · intro e he
      exact ⟨(hpatched e he).1, (hpatched e he).2.2⟩
    · intro t ht
      rcases List.mem_append.mp ht with ht | ht
      · exact htags t ht
      · have ht' : t = ⟨p.nodeName, st.tagID, p.sourceOffset,
            ((p.sourceOffset + p.sourceLength : Nat) : Int)⟩ := by simpa using ht
        rw [ht']
        show (p.sourceOffset : Int) < ((p.sourceOffset + p.sourceLength : Nat) : Int)
        omega
  have h3' : _isEmptyTag p = false := by
    cases h : _isEmptyTag p
    · rfl
    · exact absurd h h3
  by_cases h4 : p.closing = true
  · cases hsp : spliceFirst p.nodeName (patchTop textLen p st.stack) with
    | none =>
      rw [scanStep_closeNone textLen st p h1' h2 h3' h4 hsp]
      exact ⟨fun e he => ⟨(hpatched e he).1, (hpatched e he).2.2⟩, htags⟩
    | some pr =>
      obtain ⟨startTag, stack2⟩ := pr
      have hm := spliceFirst_mem p.nodeName (patchTop textLen p st.stack) startTag stack2 hsp
      rw [scanStep_closeMatch textLen st p startTag stack2 h1' h2 h3' h4 hsp]
      constructor
      · intro e he
        have hme := hpatched e (hm.2 e he)
        exact ⟨hme.1, hme.2.2⟩
      · intro t ht
        rcases List.mem_append.mp ht with ht | ht
        · exact htags t ht
        · have ht' : t = ⟨startTag.nodeName, st.tagID, startTag.sourceOffset,
              ((p.sourceOffset + p.sourceLength : Nat) : Int)⟩ := by simpa using ht
          rw [ht']
          have hlt : startTag.sourceOffset < p.sourceOffset := (hpatched startTag hm.1).2.1
          show (startTag.sourceOffset : Int) < ((p.sourceOffset + p.sourceLength : Nat) : Int)
          omega
  · have h4' : p.closing = false := by
      cases h : p.closing
      · rfl
      · exact absurd h h4
    rw [scanStep_open textLen st p h1' h2 h3' h4']
    constructor
    · intro e he
      rcases List.mem_cons.mp he with rfl | he
      · exact ⟨⟨hlen, hbound, Or.inl rfl⟩, hrest⟩
      · exact ⟨(hpatched e he).1, (hpatched e he).2.2⟩
    · exact htags

theorem scanFold_inv (textLen : Nat) :
    ∀ (stream : List Payload) (st : ScanState),
      stream.Pairwise (fun a b => a.sourceOffset < b.sourceOffset) →
      (∀ p ∈ stream, PayloadOK textLen p) →
      ScanInv textLen stream st →
      ScanInv textLen [] (stream.foldl (scanStep textLen) st) := by
  intro stream
  induction stream with
  | nil => intro st _ _ h; exact h
  | cons p rest ih =>
    intro st hpw hok hinv
    rw [List.foldl_cons]
    rw [List.pairwise_cons] at hpw
    exact ih (scanStep textLen st p) hpw.2 (fun q hq => hok q (List.mem_cons_of_mem p hq))
      (scanStep_inv textLen p rest st (hok p (List.mem_cons_self p rest)) hpw.1 hinv)

theorem drainStack_lt (textLen : Nat) :
    ∀ (stack : List OpenTag) (n : Nat), (∀ e ∈ stack, EntryOK textLen e) →
      ∀ t ∈ drainStack n stack, (t.start : Int) < t.endPos := by
  intro stack
  induction stack with
  | nil => intro n _ t ht; exact absurd ht (by simp [drainStack])
  | cons e tl ih =>
    intro n h t ht
    rcases List.mem_cons.mp ht with rfl | ht
    · have he := h e (List.mem_cons_self e tl)
      show (e.sourceOffset : Int) < (e.sourceOffset : Int) +
        (if e.unclosedLength = 0 then (e.sourceLength : Int) else e.unclosedLength)
      by_cases h0 : e.unclosedLength = 0
      · rw [if_pos h0]
        have hl : 0 < e.sourceLength := he.1
        omega
      · rw [if_neg h0]
        rcases he.2.2 with hc | hc
        · exact absurd hc h0
        · omega
    · exact ih (n + 1) (fun x hx => h x (List.mem_cons_of_mem e hx)) t ht

theorem scanEmitted_lt (textLen : Nat) (stream : List Payload)
    (hpw : stream.Pairwise (fun a b => a.sourceOffset < b.sourceOffset))
    (hok : ∀ p ∈ stream, PayloadOK textLen p) :
    ∀ t ∈ scanEmitted textLen stream, (t.start : Int) < t.endPos := by
  have hinit : ScanInv textLen stream scanInit :=
    ⟨fun e he => absurd he (by simp [scanInit]), fun t ht => absurd ht (by simp [scanInit])⟩
  have hinv := scanFold_inv textLen stream scanInit hpw hok hinit
  intro t ht
  have ht' : t ∈ (stream.foldl (scanStep textLen) scanInit).tags ++
      drainStack (stream.foldl (scanStep textLen) scanInit).tagID
        (stream.foldl (scanStep textLen) scanInit).stack := ht
  rcases List.mem_append.mp ht' with h | h
  · exact hinv.2 t h
  · exact drainStack_lt textLen _ _ (fun e he => (hinv.1 e he).1) t h

/-! ## The instrumentation pass: fold form, spec form, and stripping -/

theorem foldl_instrumentStep_fst :
    ∀ (tags : List Tag) (gen : List Char) (cumulative : Nat),
      (tags.foldl instrumentStep (gen, cumulative)).1 = instrumentSpec tags gen cumulative := by
  intro tags
  induction tags with
  | nil => intro gen c; rfl
  | cons t rest ih =>
    intro gen c
    rw [List.foldl_cons]
    show (rest.foldl instrumentStep
      (insertAttr gen (t.start + t.name.length + 1 + c) (attrTextFor t.data),
        c + (attrTextFor t.data).length)).1 = _
    rw [ih]
    rfl

theorem insertAttr_length (gen : List Char) (idx : Nat) (attr : List Char) :
    (insertAttr gen idx attr).length = gen.length + attr.length := by
  simp only [insertAttr, List.length_append, List.length_take, List.length_drop]
  omega

theorem removeAt_insertAttr (gen : List Char) (idx : Nat) (attr : List Char)
    (h : idx ≤ gen.length) :
    removeAt idx attr.length (insertAttr gen idx attr) = gen := by
  have htake : (gen.take idx).length = idx := by rw [List.length_take]; omega
  unfold removeAt insertAttr
  rw [List.append_assoc]
  rw [List.take_left' htake]
  rw [← List.append_assoc]
  have hlen : (gen.take idx ++ attr).length = idx + attr.length := by
    rw [List.length_append, htake]
  rw [List.drop_left' hlen]
  exact List.take_append_drop idx gen

theorem stripAll_append (a b : List (Nat × Nat)) (s : List Char) :
    stripAll (a ++ b) s = stripAll b (stripAll a s) := by
  induction a generalizing s with
  | nil => rfl
  | cons pr rest ih =>
    obtain ⟨i, len⟩ := pr
    show stripAll (rest ++ b) (removeAt i len s) = _
    rw [ih]
    rfl

theorem strip_foldl :
    ∀ (tags : List Tag) (gen : List Char) (cumulative : Nat),
      (∀ t ∈ tags, t.start + t.name.length + 1 + cumulative ≤ gen.length) →
      stripAll ((insertionRecords tags cumulative).reverse)
        ((tags.foldl instrumentStep (gen, cumulative)).1) = gen := by
  intro tags
  induction tags with
  | nil => intro gen c _; rfl
  | cons t rest ih =>
    intro gen c h
    have hidx : t.start + t.name.length + 1 + c ≤ gen.length :=
      h t (List.mem_cons_self t rest)
    have hrec : insertionRecords (t :: rest) c =
        (t.start + t.name.length + 1 + c, (attrTextFor t.data).length) ::
          insertionRecords rest (c + (attrTextFor t.data).length) := rfl
    rw [hrec, List.reverse_cons, stripAll_append]
    have hfold : ((t :: rest).foldl instrumentStep (gen, c)).1 =
        (rest.foldl instrumentStep
          (insertAttr gen (t.start + t.name.length + 1 + c) (attrTextFor t.data),
            c + (attrTextFor t.data).length)).1 := rfl
    rw [hfold]
    have hrest' : ∀ u ∈ rest, u.start + u.name.length + 1 +
        (c + (attrTextFor t.data).length) ≤
        (insertAttr gen (t.start + t.name.length + 1 + c) (attrTextFor t.data)).length := by
      intro u hu
      have hu' := h u (List.mem_cons_of_mem t hu)
      rw [insertAttr_length]
      omega
    rw [ih _ _ hrest']
    show removeAt (t.start + t.name.length + 1 + c) (attrTextFor t.data).length
      (insertAttr gen (t.start + t.name.length + 1 + c) (attrTextFor t.data)) = gen
    exact removeAt_insertAttr gen _ _ hidx

/-! ## Streams without element events, and the cache branches -/

theorem scanFold_noElement (textLen : Nat) :
    ∀ (stream : List Payload) (st : ScanState),
      (∀ p ∈ stream, p.nodeType = 1 → p.nodeName = "") →
      stream.foldl (scanStep textLen) st = st := by
  intro stream
  induction stream with
  | nil => intro st _; rfl
  | cons p rest ih =>
    intro st h
    rw [List.foldl_cons]
    have hstep : scanStep textLen st p = st := by
      by_cases h1 : (p.closing && _isEmptyTag p) = true
      · exact scanStep_skip textLen st p h1
      · have h1' : (p.closing && _isEmptyTag p) = false := by
          cases hb : p.closing && _isEmptyTag p
          · rfl
          · exact absurd hb h1
        refine scanStep_nonElement textLen st p h1' ?_
        rintro ⟨ht, hn⟩
        exact hn (h p (List.mem_cons_self p rest) ht)
    rw [hstep]
    exact ih st (fun q hq => h q (List.mem_cons_of_mem p hq))

theorem scanTags_noElement (textLen : Nat) (stream : List Payload)
    (h : ∀ p ∈ stream, p.nodeType = 1 → p.nodeName = "") :
    scanTags textLen stream = [] := by
  show sortTags ((stream.foldl (scanStep textLen) scanInit).tags ++
    drainStack (stream.foldl (scanStep textLen) scanInit).tagID
      (stream.foldl (scanStep textLen) scanInit).stack) = []
  rw [scanFold_noElement textLen stream scanInit h]
  rfl

theorem scanDocument_hit (c : Cache) (doc : Document) (cv : CacheEntry)
    (hc : c doc.file.fullPath = some cv) (ht : cv.timestamp = doc.diskTimestamp) :
    scanDocument c doc = (cv.tags, c) := by
  unfold scanDocument
  rw [hc]
  show (if cv.timestamp = doc.diskTimestamp then (cv.tags, c)
    else (scanTags doc.text.length doc.nodes,
      updateCache c doc.file.fullPath ⟨doc.diskTimestamp, scanTags doc.text.length doc.nodes⟩)) = _
  rw [if_pos ht]

theorem scanDocument_rescan (c : Cache) (doc : Document)
    (h : ∀ cv, c doc.file.fullPath = some cv → cv.timestamp ≠ doc.diskTimestamp) :
    scanDocument c doc = (scanTags doc.text.length doc.nodes,
      updateCache c doc.file.fullPath ⟨doc.diskTimestamp, scanTags doc.text.length doc.nodes⟩) := by
  unfold scanDocument
  cases hc : c doc.file.fullPath with
  | none => rfl
  | some cv =>
    show (if cv.timestamp = doc.diskTimestamp then (cv.tags, c)
      else (scanTags doc.text.length doc.nodes,
        updateCache c doc.file.fullPath ⟨doc.diskTimestamp, scanTags doc.text.length doc.nodes⟩)) = _
    rw [if_neg (h cv hc)]

/-! ## Claim theorems -/

/-- C1: for every document, `generateInstrumentedHTML` processes the scanned
spans in scanner-output order, inserting for each span exactly the string
`" data-brackets-id='<identity>'"` at index
`span.start + length(span.name) + 1 + cumulative inserted length`, and
returns the rewritten text (the second conjunct: it changes the cache only
through the embedded `scanDocument` call). -/
theorem claim_C1 (c : Cache) (doc : Document) :
    (generateInstrumentedHTML c doc).1 =
      instrumentSpec (scanDocument c doc).1 doc.text 0 ∧
    (generateInstrumentedHTML c doc).2 = (scanDocument c doc).2 :=
  ⟨foldl_instrumentStep_fst (scanDocument c doc).1 doc.text 0, rfl⟩

/-- C2 (counterexample): the node named `"abbr"` is not self-closed, has a
name, and its name equals (case-insensitively) none of the fixed
void-element strings, yet `_isEmptyTag` returns true for it — the
unanchored regex finds `"br"` inside `"abbr"`. -/
theorem claim_C2_counterexample :
    _isEmptyTag ⟨1, "abbr", false, false, 0, 6⟩ = true ∧
    (⟨1, "abbr", false, false, 0, 6⟩ : Payload).closed = false ∧
    (⟨1, "abbr", false, false, 0, 6⟩ : Payload).nodeName ≠ "" ∧
    (∀ v ∈ voidTagPatterns, lowerChars "abbr" ≠ v.toList) := by
  refine ⟨by decide, by decide, by decide, by decide⟩

/-- C2 (amended): the classifier returns true iff the node has no name, or
its closed flag is set, or its lower-cased name CONTAINS one of the fixed
void-element strings as a substring (the regex is unanchored, so e.g.
`"abbr"` and `"iframe"` also test true); for every other named,
non-self-closed node it returns false. -/
theorem claim_C2 (p : Payload) :
    _isEmptyTag p = true ↔
      p.closed = true ∨ p.nodeName = "" ∨
        ∃ v ∈ voidTagPatterns, listContainsSub (lowerChars p.nodeName) v.toList = true := by
  unfold _isEmptyTag
  simp [List.any_eq_true, Bool.or_eq_true, beq_iff_eq, or_assoc]

/-- C3: `scanDocument` returns the cached list untouched (and leaves the
cache unchanged) exactly when the stored timestamp equals the document's
current timestamp; on a missing entry or any timestamp mismatch it scans
fresh text, replaces the snapshot for the document's key, and returns the
new list. -/
theorem claim_C3 (c : Cache) (doc : Document) :
    (∀ cv : CacheEntry, c doc.file.fullPath = some cv →
      cv.timestamp = doc.diskTimestamp → scanDocument c doc = (cv.tags, c)) ∧
    ((∀ cv : CacheEntry, c doc.file.fullPath = some cv →
        cv.timestamp ≠ doc.diskTimestamp) →
      scanDocument c doc = (scanTags doc.text.length doc.nodes,
        updateCache c doc.file.fullPath
          ⟨doc.diskTimestamp, scanTags doc.text.length doc.nodes⟩)) :=
  ⟨fun cv hc ht => scanDocument_hit c doc cv hc ht,
   fun h => scanDocument_rescan c doc h⟩

/-- A cache already holding a (stale-tags, matching-timestamp) snapshot for
the nested example document. -/
def cacheNested : Cache := updateCache emptyCache "/doc/nested.html" ⟨7, []⟩

/-- C3 witness: with a matching timestamp the cached (here: empty) list is
returned and the cache is untouched; with no entry a fresh scan is stored
and returned. -/
theorem claim_C3_witness :
    scanDocument cacheNested docNested = ([], cacheNested) ∧
    scanDocument emptyCache docNested =
      (scanTags docNested.text.length docNested.nodes,
        updateCache emptyCache docNested.file.fullPath
          ⟨docNested.diskTimestamp, scanTags docNested.text.length docNested.nodes⟩) := by
  constructor
  · exact (claim_C3 cacheNested docNested).1 ⟨7, []⟩ (by decide) rfl
  · exact (claim_C3 emptyCache docNested).2 (fun cv h => absurd h (by simp [emptyCache]))

/-- C4 (counterexample): scanning `"<div><p>text"` yields the spans
`div: [0, 5)` and `p: [5, 8)` — neither span's end equals the document
length 12, contrary to the claim that both end at end-of-document. -/
theorem claim_C4_counterexample :
    scanTags ("<div><p>text".toList.length) streamUnclosed =
      [⟨"div", 2, 0, 5⟩, ⟨"p", 1, 5, 8⟩] ∧
    ¬(∀ t ∈ scanTags ("<div><p>text".toList.length) streamUnclosed,
        t.endPos = ("<div><p>text".toList.length : Int)) := by
  refine ⟨by decide, by decide⟩

/-- C4 (amended): scanning `"<div><p>text"` yields exactly two spans, the
`p` span drained (and given its identity) before the `div` span; but the
drained ends are bounded by the back-patched unclosed extents: `p` ends at
its own start + source length (8) and `div` ends at the `p` tag's start
offset (5); only entries named `HTML`/`BODY` extend to end-of-document. -/
theorem claim_C4 :
    "<div><p>text".toList.length = 12 ∧
    scanEmitted 12 streamUnclosed = [⟨"p", 1, 5, 8⟩, ⟨"div", 2, 0, 5⟩] ∧
    scanTags 12 streamUnclosed = [⟨"div", 2, 0, 5⟩, ⟨"p", 1, 5, 8⟩] := by
  refine ⟨by decide, by decide, by decide⟩

/-- C5: a closing event is matched to the most recently opened
not-yet-closed entry with the same name — the first match walking the
(patched) stack from its top — which is spliced out while the entries
above it stay on the stack, and the emitted span runs from that entry's
start to the closing token's end; consequently `"<div><span>x</span></div>"`
yields exactly two spans, `span` with the strictly smaller identity,
`div.start < span.start` and `span.end ≤ div.end`. -/
theorem claim_C5 (textLen : Nat) (st : ScanState) (p : Payload)
    (pre post : List OpenTag) (t : OpenTag)
    (hclosing : p.closing = true) (htype : p.nodeType = 1) (hname : p.nodeName ≠ "")
    (hnotempty : _isEmptyTag p = false)
    (hstack : patchTop textLen p st.stack = pre ++ t :: post)
    (hmatch : t.nodeName = p.nodeName)
    (hpre : ∀ u ∈ pre, u.nodeName ≠ p.nodeName) :
    ((scanStep textLen st p).stack = pre ++ post ∧
      (scanStep textLen st p).tags = st.tags ++
        [⟨t.nodeName, st.tagID, t.sourceOffset, ((p.sourceOffset + p.sourceLength : Nat) : Int)⟩] ∧
      (scanStep textLen st p).tagID = st.tagID + 1) ∧
    ("<div><span>x</span></div>".toList.length = 25 ∧
      scanTags 25 streamNested = [⟨"div", 2, 0, 25⟩, ⟨"span", 1, 5, 19⟩] ∧
      (⟨"span", 1, 5, 19⟩ : Tag).data < (⟨"div", 2, 0, 25⟩ : Tag).data ∧
      (⟨"div", 2, 0, 25⟩ : Tag).start < (⟨"span", 1, 5, 19⟩ : Tag).start ∧
      (⟨"span", 1, 5, 19⟩ : Tag).endPos ≤ (⟨"div", 2, 0, 25⟩ : Tag).endPos) := by
  have h1' : (p.closing && _isEmptyTag p) = false := by rw [hclosing, hnotempty]; rfl
  have hsp : spliceFirst p.nodeName (patchTop textLen p st.stack) = some (t, pre ++ post) := by
    rw [hstack]; exact spliceFirst_ofMem p.nodeName t hmatch pre post hpre
  have hs := scanStep_closeMatch textLen st p t (pre ++ post) h1' ⟨htype, hname⟩
    hnotempty hclosing hsp
  refine ⟨⟨?_, ?_, ?_⟩, by decide, by decide, by decide, by decide, by decide⟩
  · rw [hs]
  · rw [hs]
  · rw [hs]

/-- C5 witness: the closing `</span>` of the nested example, arriving on
the stack `[span, div]`, splices out the patched `span` entry and emits
its span. -/
theorem claim_C5_witness :
    ((scanStep 25 ⟨[], [⟨"span", 5, 6, 0⟩, ⟨"div", 0, 5, 5⟩], 1⟩
        ⟨1, "span", false, true, 12, 7⟩).stack = [⟨"div", 0, 5, 5⟩] ∧
      (scanStep 25 ⟨[], [⟨"span", 5, 6, 0⟩, ⟨"div", 0, 5, 5⟩], 1⟩
        ⟨1, "span", false, true, 12, 7⟩).tags = [⟨"span", 1, 5, 19⟩] ∧
      (scanStep 25 ⟨[], [⟨"span", 5, 6, 0⟩, ⟨"div", 0, 5, 5⟩], 1⟩
        ⟨1, "span", false, true, 12, 7⟩).tagID = 2) ∧
    scanTags 25 streamNested = [⟨"div", 2, 0, 25⟩, ⟨"span", 1, 5, 19⟩] := by
  have h := claim_C5 25 ⟨[], [⟨"span", 5, 6, 0⟩, ⟨"div", 0, 5, 5⟩], 1⟩
    ⟨1, "span", false, true, 12, 7⟩ [] [⟨"div", 0, 5, 5⟩] ⟨"span", 5, 6, 7⟩
    rfl rfl (by decide) (by decide) (by decide) rfl
    (fun u hu => absurd hu (List.not_mem_nil u))
  exact ⟨⟨h.1.1, h.1.2.1, h.1.2.2⟩, h.2.2.1⟩

/-- C6: for a node stream in document order (strictly ascending offsets)
whose element events have positive lengths and lie within the text, every
returned span has `start < end`, the list is sorted ascending by `start`
stably with respect to emission order, and the identities are pairwise
distinct positive integers. -/
theorem claim_C6 (textLen : Nat) (stream : List Payload)
    (horder : stream.Pairwise (fun a b => a.sourceOffset < b.sourceOffset))
    (hok : ∀ p ∈ stream, PayloadOK textLen p) :
    (∀ t ∈ scanTags textLen stream, (t.start : Int) < t.endPos) ∧
    (scanTags textLen stream).Pairwise (fun a b => a.start ≤ b.start) ∧
    (∀ k : Nat, (scanTags textLen stream).filter (fun t => t.start == k) =
      (scanEmitted textLen stream).filter (fun t => t.start == k)) ∧
    ((scanTags textLen stream).map (fun t => t.data)).Nodup ∧
    (∀ t ∈ scanTags textLen stream, 0 < t.data) := by
  have hperm : (scanTags textLen stream).Perm (scanEmitted textLen stream) :=
    sortTags_perm (scanEmitted textLen stream)
  refine ⟨?_, sortTags_sorted _, fun k => sortTags_filter_start _ k, ?_, ?_⟩
  · intro t ht
    exact scanEmitted_lt textLen stream horder hok t (hperm.mem_iff.mp ht)
  · refine ((hperm.map (fun t => t.data)).nodup_iff).mpr ?_
    rw [scanEmitted_map_data]
    exact List.nodup_range' 1 (scanEmitted textLen stream).length
  · intro t ht
    have hmem : t.data ∈ (scanEmitted textLen stream).map (fun t => t.data) :=
      List.mem_map_of_mem _ (hperm.mem_iff.mp ht)
    rw [scanEmitted_map_data] at hmem
    obtain ⟨i, hi, hit⟩ := List.mem_range'.mp hmem
    omega

/-- C6 witness: the invariants hold of the nested example scan. -/
theorem claim_C6_witness :
    (∀ t ∈ scanTags 25 streamNested, (t.start : Int) < t.endPos) ∧
    (scanTags 25 streamNested).Pairwise (fun a b => a.start ≤ b.start) ∧
    (∀ k : Nat, (scanTags 25 streamNested).filter (fun t => t.start == k) =
      (scanEmitted 25 streamNested).filter (fun t => t.start == k)) ∧
    ((scanTags 25 streamNested).map (fun t => t.data)).Nodup ∧
    (∀ t ∈ scanTags 25 streamNested, 0 < t.data) :=
  claim_C6 25 streamNested (by decide) (by decide)

/-- C7: a closing event whose name matches no entry anywhere on the open
stack is dropped after the logged error: no span is emitted, no identity
is consumed, and the stack keeps exactly its entries (only the routine
back-patch of the top entry's unclosed extent, applied to every element
event, may have run — names, offsets and lengths are untouched); scanning
`"<div></span></div>"` still yields exactly one `div` span covering the
whole input. -/
theorem claim_C7 (textLen : Nat) (st : ScanState) (p : Payload)
    (hclosing : p.closing = true) (htype : p.nodeType = 1) (hname : p.nodeName ≠ "")
    (hnotempty : _isEmptyTag p = false)
    (hunmatched : ∀ e ∈ st.stack, e.nodeName ≠ p.nodeName) :
    ((scanStep textLen st p).tags = st.tags ∧
      (scanStep textLen st p).tagID = st.tagID ∧
      (scanStep textLen st p).stack = patchTop textLen p st.stack ∧
      (patchTop textLen p st.stack).map (fun e => (e.nodeName, e.sourceOffset, e.sourceLength)) =
        st.stack.map (fun e => (e.nodeName, e.sourceOffset, e.sourceLength))) ∧
    ("<div></span></div>".toList.length = 18 ∧
      scanTags 18 streamStray = [⟨"div", 1, 0, 18⟩]) := by
  have h1' : (p.closing && _isEmptyTag p) = false := by rw [hclosing, hnotempty]; rfl
  have hsp : spliceFirst p.nodeName (patchTop textLen p st.stack) = none :=
    spliceFirst_eq_none p.nodeName (patchTop textLen p st.stack)
      (patchTop_names textLen p st.stack p.nodeName hunmatched)
  have hs := scanStep_closeNone textLen st p h1' ⟨htype, hname⟩ hnotempty hclosing hsp
  refine ⟨⟨?_, ?_, ?_, patchTop_fields textLen p st.stack⟩, by decide, by decide⟩
  · rw [hs]
  · rw [hs]
  · rw [hs]

/-- C7 witness: the stray `</span>` arriving on the stack `[div]` emits
nothing and only back-patches the `div` entry's unclosed extent. -/
theorem claim_C7_witness :
    ((scanStep 18 ⟨[], [⟨"div", 0, 5, 0⟩], 1⟩ ⟨1, "span", false, true, 5, 7⟩).tags = [] ∧
      (scanStep 18 ⟨[], [⟨"div", 0, 5, 0⟩], 1⟩ ⟨1, "span", false, true, 5, 7⟩).tagID = 1 ∧
      (scanStep 18 ⟨[], [⟨"div", 0, 5, 0⟩], 1⟩ ⟨1, "span", false, true, 5, 7⟩).stack =
        patchTop 18 ⟨1, "span", false, true, 5, 7⟩ [⟨"div", 0, 5, 0⟩] ∧
      (patchTop 18 ⟨1, "span", false, true, 5, 7⟩ [⟨"div", 0, 5, 0⟩]).map
          (fun e => (e.nodeName, e.sourceOffset, e.sourceLength)) =
        ([⟨"div", 0, 5, 0⟩] : List OpenTag).map
          (fun e => (e.nodeName, e.sourceOffset, e.sourceLength))) ∧
    scanTags 18 streamStray = [⟨"div", 1, 0, 18⟩] := by
  have h := claim_C7 18 ⟨[], [⟨"div", 0, 5, 0⟩], 1⟩ ⟨1, "span", false, true, 5, 7⟩
    rfl rfl (by decide) (by decide) (by decide)
  exact ⟨h.1, h.2.2⟩

/-- C8: instrumenting a document and then deleting the injected attribute
strings (each at its recorded insertion index, removed last-inserted
first) restores exactly the original text, for every scan whose spans lie
within the text as the tokenizer contract guarantees. -/
theorem claim_C8 (c : Cache) (doc : Document)
    (h : ∀ t ∈ (scanDocument c doc).1, t.start + t.name.length + 1 ≤ doc.text.length) :
    stripAll ((insertionRecords (scanDocument c doc).1 0).reverse)
      ((generateInstrumentedHTML c doc).1) = doc.text := by
  have h' : ∀ t ∈ (scanDocument c doc).1,
      t.start + t.name.length + 1 + 0 ≤ doc.text.length := by
    intro t ht
    have := h t ht
    omega
  exact strip_foldl (scanDocument c doc).1 doc.text 0 h'

/-- C8 witness: the round trip on the nested example document. -/
theorem claim_C8_witness :
    stripAll ((insertionRecords (scanDocument emptyCache docNested).1 0).reverse)
      ((generateInstrumentedHTML emptyCache docNested).1) = docNested.text :=
  claim_C8 emptyCache docNested (by decide)

/-- C9 (counterexample): with an empty cache — no prior scan for the
document — `generateInstrumentedHTML` still produces its normal
instrumented output, because it invokes `scanDocument` itself. -/
theorem claim_C9_counterexample :
    emptyCache docSimple.file.fullPath = none ∧
    (generateInstrumentedHTML emptyCache docSimple).1 =
      "<div data-brackets-id='1'></div>".toList := by
  refine ⟨rfl, by decide⟩

/-- C9 (amended): only the Position Resolver side requires a prior scan —
`_markText` reports an error and marks nothing when no cache entry exists
for the document, and proceeds with the cached tags when one does —
whereas `generateInstrumentedHTML` needs no prior scan: even on an empty
cache it produces the normal instrumented output of a fresh scan. -/
theorem claim_C9 (c : Cache) (path : String) (doc : Document) :
    (c path = none → _markText c path = none) ∧
    (∀ cv : CacheEntry, c path = some cv → _markText c path = some cv.tags) ∧
    (generateInstrumentedHTML emptyCache doc).1 =
      instrumentSpec (scanTags doc.text.length doc.nodes) doc.text 0 := by
  refine ⟨?_, ?_, ?_⟩
  · intro h
    unfold _markText
    rw [h]
  · intro cv h
    unfold _markText
    rw [h]
  · have hscan : scanDocument emptyCache doc = (scanTags doc.text.length doc.nodes,
        updateCache emptyCache doc.file.fullPath
          ⟨doc.diskTimestamp, scanTags doc.text.length doc.nodes⟩) :=
      scanDocument_rescan emptyCache doc (fun cv hc => absurd hc (by simp [emptyCache]))
    show ((scanDocument emptyCache doc).1.foldl instrumentStep (doc.text, 0)).1 = _
    rw [hscan]
    exact foldl_instrumentStep_fst _ doc.text 0

/-- C9 witness: the amended statement at the simple example document. -/
theorem claim_C9_witness :
    (emptyCache "/doc/simple.html" = none →
      _markText emptyCache "/doc/simple.html" = none) ∧
    (∀ cv : CacheEntry, emptyCache "/doc/simple.html" = some cv →
      _markText emptyCache "/doc/simple.html" = some cv.tags) ∧
    (generateInstrumentedHTML emptyCache docSimple).1 =
      instrumentSpec (scanTags docSimple.text.length docSimple.nodes) docSimple.text 0 :=
  claim_C9 emptyCache "/doc/simple.html" docSimple

/-- C10: scanning a document whose node stream has no element events
returns the empty list (never an error), still stores the snapshot
`(timestamp, [])` under the document's key, and a later call with the
same timestamp returns that cached empty list with the cache unchanged. -/
theorem claim_C10 (c : Cache) (doc : Document)
    (hnodes : ∀ p ∈ doc.nodes, p.nodeType = 1 → p.nodeName = "")
    (hmiss : c doc.file.fullPath = none) :
    (scanDocument c doc).1 = [] ∧
    (scanDocument c doc).2 doc.file.fullPath = some ⟨doc.diskTimestamp, []⟩ ∧
    scanDocument (scanDocument c doc).2 doc = ([], (scanDocument c doc).2) := by
  have htags : scanTags doc.text.length doc.nodes = [] :=
    scanTags_noElement doc.text.length doc.nodes hnodes
  have hre : scanDocument c doc = (scanTags doc.text.length doc.nodes,
      updateCache c doc.file.fullPath
        ⟨doc.diskTimestamp, scanTags doc.text.length doc.nodes⟩) :=
    scanDocument_rescan c doc (fun cv hc => by rw [hmiss] at hc; exact absurd hc (by simp))
  have hcv : updateCache c doc.file.fullPath
      ⟨doc.diskTimestamp, scanTags doc.text.length doc.nodes⟩ doc.file.fullPath =
      some ⟨doc.diskTimestamp, []⟩ := by
    unfold updateCache
    rw [if_pos rfl, htags]
  refine ⟨?_, ?_, ?_⟩
  · rw [hre, htags]
  · rw [hre]
    exact hcv
  · rw [hre]
    show scanDocument (updateCache c doc.file.fullPath
      ⟨doc.diskTimestamp, scanTags doc.text.length doc.nodes⟩) doc = _
    rw [scanDocument_hit (updateCache c doc.file.fullPath
      ⟨doc.diskTimestamp, scanTags doc.text.length doc.nodes⟩) doc
      ⟨doc.diskTimestamp, []⟩ hcv rfl]

/-- C10 witness: the tag-free example document. -/
theorem claim_C10_witness :
    (scanDocument emptyCache docPlain).1 = [] ∧
    (scanDocument emptyCache docPlain).2 docPlain.file.fullPath =
      some ⟨docPlain.diskTimestamp, []⟩ ∧
    scanDocument (scanDocument emptyCache docPlain).2 docPlain =
      ([], (scanDocument emptyCache docPlain).2) :=
  claim_C10 emptyCache docPlain (by decide) rfl
